import Mathlib

/-!
Verification of the fuel-tracking core of `Fuel_Control_KS`.

A shallow embedding of the repository's core logic:

* numbers read from or written to the spreadsheet are modelled as exact
  rationals (`ℚ`); the 2-fractional-digit cell format of `sheets._to_str_dot`
  is modelled with the round-half-even decimal rounding that Python's
  `f"{v:.2f}"` performs (binary-double artifacts of CPython floats are not
  modelled);
* Python strings are modelled as `String` / `List Char` (one `Char` per code
  point, matching CPython's `len` and indexing);
* the `Objects` worksheet is a list of `ObjRow` whose numeric cells are held
  as rationals (every numeric cell the system itself writes goes through the
  fixed 2-digit format, which is verified separately in the round-trip
  theorem); the `Logs` worksheet is a list of `LogEntry` (the wall-clock
  Kyiv timestamp column is environment input and is not modelled);
* a Python `raise ValueError` inside `update_object_fuel_with_calc` is
  modelled by an `error` field carried in the result together with the
  unchanged worksheet state, since the exception aborts the call before any
  cell write;
* `float()` literals of the forms `inf`/`nan` and digit-group underscores
  are outside the model of the numeric parser.
-/

set_option maxRecDepth 8000

/-- A Python value arriving at `sheets._to_float`: a number, a string, or
`None`. -/
inductive PyVal where
  | num (q : ℚ)
  | str (s : String)
  | pyNone
deriving DecidableEq

/-- Characters removed by Python's `str.strip()` (ASCII whitespace plus the
no-break space; the exotic unicode space code points do not occur in this
system's data). -/
def pySpace (c : Char) : Bool :=
  c == ' ' || c == '\t' || c == '\n' || c == '\r' || c == '\x0b' ||
    c == '\x0c' || c == ' '

/-- Python `str.strip()` on a list of code points. -/
def pyStripChars (l : List Char) : List Char :=
  ((l.dropWhile pySpace).reverse.dropWhile pySpace).reverse

/-- Python `str.strip()` on a string. -/
def pyStrip (s : String) : String := ⟨pyStripChars s.data⟩

/-- The chain `s.replace(" ", "").replace(" ", "").replace(",", ".")`
from `sheets._to_float` / `bot._to_float_safe`. -/
def pyCleanChars (l : List Char) : List Char :=
  (l.filter (fun c => !(c == ' ' || c == ' '))).map
    (fun c => if c == ',' then '.' else c)

/-- Decimal digit test on a code point. -/
def isDigitChar (c : Char) : Bool := 48 ≤ c.toNat && c.toNat ≤ 57

/-- Value of a big-endian digit string. -/
def charsToNat (l : List Char) : ℕ := l.foldl (fun a c => a * 10 + (c.toNat - 48)) 0

/-- The code point of a decimal digit. -/
def digitChar (d : ℕ) : Char := Char.ofNat (48 + d)

/-- Little-endian decimal digits with explicit fuel (so that the kernel can
evaluate it); agrees with `Nat.digits 10` when the fuel suffices. -/
def natDigitsAux : ℕ → ℕ → List ℕ
  | _, 0 => []
  | 0, _ + 1 => []
  | fuel + 1, n + 1 => (n + 1) % 10 :: natDigitsAux fuel ((n + 1) / 10)

/-- Big-endian decimal rendering of a natural number. -/
def natToChars (n : ℕ) : List Char :=
  if n = 0 then ['0'] else (natDigitsAux n n).reverse.map digitChar

/-- Mantissa part of a Python `float(...)` literal: digits with at most one
decimal point, at least one digit in total. -/
def parseMant (l : List Char) : Option ℚ :=
  let ip := l.takeWhile (fun c => !(c == '.'))
  match l.dropWhile (fun c => !(c == '.')) with
  | [] =>
    if !ip.isEmpty && ip.all isDigitChar then some ((charsToNat ip : ℚ)) else none
  | _ :: fp =>
    if !(ip.isEmpty && fp.isEmpty) && ip.all isDigitChar && fp.all isDigitChar
    then some ((charsToNat ip : ℚ) + (charsToNat fp : ℚ) / (10 : ℚ) ^ fp.length)
    else none

/-- Digits of an exponent, without sign. -/
def parseExpDigits (l : List Char) : Option ℤ :=
  if !l.isEmpty && l.all isDigitChar then some ((charsToNat l : ℤ)) else none

/-- Signed exponent of a Python float literal. -/
def parseExpPart (l : List Char) : Option ℤ :=
  match l with
  | '+' :: rest => parseExpDigits rest
  | '-' :: rest => (parseExpDigits rest).map Neg.neg
  | _ => parseExpDigits l

/-- Unsigned Python float literal: mantissa with optional `e`/`E` exponent. -/
def parseUnsignedDec (l : List Char) : Option ℚ :=
  let mant := l.takeWhile (fun c => !(c == 'e' || c == 'E'))
  match l.dropWhile (fun c => !(c == 'e' || c == 'E')) with
  | [] => parseMant mant
  | _ :: ex =>
    (parseMant mant).bind (fun m => (parseExpPart ex).map (fun e => m * (10 : ℚ) ^ e))

/-- Python `float(...)` on an already-stripped literal: optional sign, then
an unsigned literal. -/
def parseDec (l : List Char) : Option ℚ :=
  match l with
  | '+' :: rest => parseUnsignedDec rest
  | '-' :: rest => (parseUnsignedDec rest).map (fun q => -q)
  | _ => parseUnsignedDec l

/-- Model of `sheets._to_float` (identical to `bot._to_float_safe`): numbers pass
through, `None`/empty/unparseable text yields the default, otherwise the
text is stripped, inner spaces and no-break spaces removed, commas turned
into dots, and parsed. -/
def _to_float (x : PyVal) (default : ℚ) : ℚ :=
  match x with
  | .num q => q
  | .pyNone => default
  | .str s =>
    let t := pyStripChars s.data
    if t.isEmpty then default
    else
      match parseDec (pyCleanChars t) with
      | Option.some q => q
      | Option.none => default

/-- Round-half-even to an integer, the rounding of Python's `f"{v:.2f}"`
(applied to the value scaled by 100). -/
def roundHE (q : ℚ) : ℤ :=
  if q - ⌊q⌋ < 1/2 then ⌊q⌋
  else if 1/2 < q - ⌊q⌋ then ⌊q⌋ + 1
  else if ⌊q⌋ % 2 = 0 then ⌊q⌋ else ⌊q⌋ + 1

/-- Digits of a 2-decimal fixed-point rendering of `m / 100`. -/
def renderNat2 (m : ℕ) : List Char :=
  natToChars (m / 100) ++ '.' :: [digitChar (m / 10 % 10), digitChar (m % 10)]

/-- Model of `sheets._to_str_dot` with its default `ndigits = 2`: fixed decimal-point
format `f"{float(v):.2f}"` (the trailing `.replace(",", ".")` is a no-op on
this output). Python's `-0.00` sign is not reproduced; its parsed value is
identical. -/
def _to_str_dot (v : ℚ) : String :=
  let n := roundHE (v * 100)
  if n < 0 then ⟨'-' :: renderNat2 n.natAbs⟩ else ⟨renderNat2 n.toNat⟩

/-- The value `v` rounded (half-even) to 2 decimal places. -/
def round2 (v : ℚ) : ℚ := (roundHE (v * 100) : ℚ) / 100

/-- Model of `sheets._clamp`. -/
def _clamp (v lo hi : ℚ) : ℚ := max lo (min hi v)

/-- Model of `bot._fmt_hours` on a numeric value: 2-decimal rendering with trailing
zeros, then a trailing dot, stripped. -/
def _fmt_hours (v : ℚ) : String :=
  let s1 := ((_to_str_dot v).data.reverse.dropWhile (fun c => c == '0')).reverse
  ⟨(s1.reverse.dropWhile (fun c => c == '.')).reverse⟩

/-- One row of the `Objects` worksheet, with its numeric cells read through
the normalizer (columns: ObjectID, EngineHours, FuelCapacity, CurrentFuel,
FuelUsagePerHour). -/
structure ObjRow where
  objectId : String
  engineHours : ℚ
  fuelCapacity : ℚ
  currentFuel : ℚ
  fuelUsagePerHour : ℚ
deriving DecidableEq

/-- One appended row of the `Logs` worksheet (`sheets.append_log`); the
Kyiv wall-clock timestamp column is environment input and is not modelled. -/
structure LogEntry where
  object_id : String
  prev_hours : ℚ
  new_hours : ℚ
  hours_delta : ℚ
  fuel_added : ℚ
  full_tank : Bool
  calculated_current_fuel : ℚ
  user_id : ℤ
  username : String
deriving DecidableEq

/-- The data of the `ValueError` raised by `update_object_fuel_with_calc`
when the new engine hours are below the stored ones: the message interpolates
the rejected value and (twice) the pretty-printed stored minimum. -/
structure MonoError where
  rejected : ℚ
  minAccept : ℚ
deriving DecidableEq

/-- Outcome of one `update_object_fuel_with_calc` call: the raised error (if
any), the returned boolean, and the `Objects` / `Logs` worksheets after the
call. -/
structure UpdateResult where
  error : Option MonoError
  ok : Bool
  table : List ObjRow
  logs : List LogEntry
deriving DecidableEq

/-- The row scan of `sheets.update_object_fuel_with_calc`: find the first row
whose ObjectID equals (`str` equality, no trimming) the queried id, validate
monotonicity, recompute the fuel level, write the two cells and append a log
row. Rows before the match are kept unchanged. -/
def updateRows (object_id : String) (new_engine_hours fuel_added : PyVal)
    (full_tank : Bool) (user_id : ℤ) (username : Option String)
    (logs : List LogEntry) : List ObjRow → UpdateResult
  | [] => { error := none, ok := false, table := [], logs := logs }
  | r :: rest =>
    if r.objectId == object_id then
      let prev_hours := r.engineHours
      let capacity := r.fuelCapacity
      let prev_current := r.currentFuel
      let usage := r.fuelUsagePerHour
      let new_hours := _to_float new_engine_hours prev_hours
      let fuel_add := _to_float fuel_added 0
      if new_hours < prev_hours then
        { error := some { rejected := new_hours, minAccept := prev_hours },
          ok := false, table := r :: rest, logs := logs }
      else
        let delta_hours := max 0 (new_hours - prev_hours)
        let burned := delta_hours * usage
        let new_current :=
          if full_tank then capacity
          else _clamp (prev_current - burned + fuel_add) 0 capacity
        { error := none, ok := true,
          table := { r with engineHours := new_hours, currentFuel := new_current } :: rest,
          logs := logs ++ [{ object_id := object_id, prev_hours := prev_hours,
                             new_hours := new_hours, hours_delta := delta_hours,
                             fuel_added := fuel_add, full_tank := full_tank,
                             calculated_current_fuel := new_current,
                             user_id := user_id, username := username.getD "" }] }
    else
      let res := updateRows object_id new_engine_hours fuel_added full_tank
        user_id username logs rest
      { res with table := r :: res.table }

/-- Model of `sheets.update_object_fuel_with_calc` over a worksheet state. -/
def update_object_fuel_with_calc (table : List ObjRow) (logs : List LogEntry)
    (object_id : String) (new_engine_hours fuel_added : PyVal)
    (full_tank : Bool) (user_id : ℤ) (username : Option String) : UpdateResult :=
  updateRows object_id new_engine_hours fuel_added full_tank user_id username
    logs table

/-- Model of `sheets.delete_object`: remove the first row whose ObjectID equals the
queried id (exact string equality, no trimming); report whether one existed. -/
def delete_object (table : List ObjRow) (object_id : String) :
    List ObjRow × Bool :=
  match table with
  | [] => ([], false)
  | r :: rest =>
    if r.objectId == object_id then (rest, true)
    else
      let res := delete_object rest object_id
      (r :: res.1, res.2)

/-- Model of `sheets.update_capacity`: write column 3 of the first row whose ObjectID
equals the queried id. -/
def update_capacity (table : List ObjRow) (object_id : String)
    (new_capacity : ℚ) : List ObjRow × Bool :=
  match table with
  | [] => ([], false)
  | r :: rest =>
    if r.objectId == object_id then
      ({ r with fuelCapacity := new_capacity } :: rest, true)
    else
      let res := update_capacity rest object_id new_capacity
      (r :: res.1, res.2)

/-- Model of `sheets.update_usage`: write column 5 of the first row whose ObjectID
equals the queried id. -/
def update_usage (table : List ObjRow) (object_id : String)
    (new_usage_per_hour : ℚ) : List ObjRow × Bool :=
  match table with
  | [] => ([], false)
  | r :: rest =>
    if r.objectId == object_id then
      ({ r with fuelUsagePerHour := new_usage_per_hour } :: rest, true)
    else
      let res := update_usage rest object_id new_usage_per_hour
      (r :: res.1, res.2)

/-- Constant `bot.TELEGRAM_MAX_LEN`: per-message character budget, a margin below the
transport's 4096 hard limit. -/
def TELEGRAM_MAX_LEN : ℕ := 3900

/-- Python `text.split("\n")`. -/
def splitNL : List Char → List (List Char)
  | [] => [[]]
  | c :: cs =>
    if c = '\n' then [] :: splitNL cs
    else
      match splitNL cs with
      | [] => [[c]]
      | t :: ts => (c :: t) :: ts

/-- Python `"\n".join(...)`. -/
def joinNL : List (List Char) → List Char
  | [] => []
  | [t] => t
  | t :: ts => t ++ '\n' :: joinNL ts

/-- Helper `_flush` inside `bot.send_long_text`: an empty chunk sends nothing. -/
def emitChunk (chunk : List (List Char)) : List (List Char) :=
  if chunk.isEmpty then [] else [joinNL chunk]

/-- The line loop of `bot.send_long_text`: `length` keeps the running sum of
`len(line) + 1` over the current chunk; a line whose `add_len` would push it
past the budget first flushes the chunk and resets the count, then the line
is appended unconditionally. -/
def sendChunks : List (List Char) → List (List Char) → ℕ → List (List Char) →
    List (List Char)
  | [], chunk, _, acc => acc ++ emitChunk chunk
  | l :: ls, chunk, length, acc =>
    if length + (l.length + 1) > TELEGRAM_MAX_LEN then
      sendChunks ls [l] (l.length + 1) (acc ++ emitChunk chunk)
    else
      sendChunks ls (chunk ++ [l]) (length + (l.length + 1)) acc

/-- Model of `bot.send_long_text`: the sequence of messages sent for one text. -/
def send_long_text (text : List Char) : List (List Char) :=
  sendChunks (splitNL text) [] 0 []

/-- The re-prompt of `bot.enter_engine_hours` when the entered hours are
below the stored value; `pretty` is the `_fmt_hours` rendering of the stored
value. -/
def entry_mono_msg (pretty : String) : String :=
  "❌ Значення мотогодин має бути не меншим за поточне у таблиці (" ++ pretty ++
    "). Введіть коректне число ще раз:"

/-- The `ValueError` message of `sheets.update_object_fuel_with_calc`;
`rejected` is the `f-string` rendering of the rejected value and `pretty`
the pretty-printed stored value (interpolated twice). -/
def commit_mono_msg (rejected pretty : String) : String :=
  "Значення мотогодин (" ++ rejected ++ ") менше за поточне у таблиці (" ++
    pretty ++ "). Введіть значення не менше " ++ pretty ++ "."

/-- What `bot.confirm_full_tank` shows the user when the commit raises: the
error text prefixed with the cross mark. -/
def commit_mono_user_msg (rejected pretty : String) : String :=
  "❌ " ++ commit_mono_msg rejected pretty

/-- Outcome of one `bot.enter_engine_hours` message turn. -/
inductive EntryResult where
  | reprompt_parse (msg : String)
  | reprompt_mono (msg : String)
  | not_found (msg : String)
  | proceed (entered : ℚ)
deriving DecidableEq

/-- The strict numeric parse of `bot.enter_engine_hours`:
`float(update.message.text.strip().replace(",", "."))`, propagating failure
instead of defaulting. -/
def parse_entered_hours (text : String) : Option ℚ :=
  parseDec ((pyStripChars text.data).map (fun c => if c == ',' then '.' else c))

/-- Model of `bot.enter_engine_hours`: parse the entered hours strictly (re-prompt on
failure), look the object up by trimmed stored id, and reject entered hours
below the stored value with `entry_mono_msg`, before the fuel amount is
asked. -/
def enter_engine_hours (text : String) (objects : List ObjRow)
    (object_id : String) : EntryResult :=
  match parse_entered_hours text with
  | Option.none =>
    .reprompt_parse "Будь ласка, введіть число (наприклад, 735.4). Спробуйте ще раз:"
  | Option.some entered =>
    match objects.find? (fun o => pyStrip o.objectId == object_id) with
    | Option.none =>
      .not_found ("⚠️ Об\u0027єкт " ++ object_id ++ " не знайдено у таблиці. Спробуйте /start")
    | Option.some o =>
      if entered < o.engineHours then
        .reprompt_mono (entry_mono_msg (_fmt_hours o.engineHours))
      else .proceed entered

/-- Display clamp of the report formatters in `bot`:
`min(cur, cap) if cap > 0 else cur`. -/
def cur_disp (cap cur : ℚ) : ℚ := if 0 < cap then min cur cap else cur

/-- The per-record shortage: `need = max(0.0, cap - cur_disp)` in the loop of
`bot.shortage_report` (named `amount_to_full` in the spec). -/
def amount_to_full (o : ObjRow) : ℚ :=
  max 0 (o.fuelCapacity - cur_disp o.fuelCapacity o.currentFuel)

/-- The row collection loop of `bot.shortage_report`: trimmed id, display
clamp, need; a record with a falsy (empty) trimmed id or without need is
skipped (`if obj and need > 0`). -/
def shortage_rows_unsorted (objects : List ObjRow) : List (String × ℚ) :=
  objects.filterMap (fun o =>
    let obj := pyStrip o.objectId
    let need := amount_to_full o
    if obj ≠ "" ∧ 0 < need then some (obj, need) else none)

/-- Model of `bot.shortage_report`: the listed rows, sorted ascending by object id
(Python's stable sort), and the reported total, accumulated over the same
loop that collects the rows. -/
def shortage_report (objects : List ObjRow) : List (String × ℚ) × ℚ :=
  (List.insertionSort (fun a b => a.1 ≤ b.1) (shortage_rows_unsorted objects),
    ((shortage_rows_unsorted objects).map Prod.snd).sum)

/-- Characterisation of `update_object_fuel_with_calc` when the queried id
matches the row `r` and no earlier row matches. -/
lemma update_found (pre post : List ObjRow) (r : ObjRow) (oid : String)
    (nh fa : PyVal) (ft : Bool) (uid : ℤ) (un : Option String)
    (logs : List LogEntry)
    (hpre : ∀ x ∈ pre, x.objectId ≠ oid) (hr : r.objectId = oid) :
    update_object_fuel_with_calc (pre ++ r :: post) logs oid nh fa ft uid un =
      if _to_float nh r.engineHours < r.engineHours then
        { error := some { rejected := _to_float nh r.engineHours,
                          minAccept := r.engineHours },
          ok := false, table := pre ++ r :: post, logs := logs }
      else
        { error := none, ok := true,
          table := pre ++ { r with
              engineHours := _to_float nh r.engineHours,
              currentFuel := if ft then r.fuelCapacity
                else _clamp (r.currentFuel -
                    max 0 (_to_float nh r.engineHours - r.engineHours) *
                      r.fuelUsagePerHour + _to_float fa 0)
                  0 r.fuelCapacity } :: post,
          logs := logs ++
            [{ object_id := oid, prev_hours := r.engineHours,
               new_hours := _to_float nh r.engineHours,
               hours_delta := max 0 (_to_float nh r.engineHours - r.engineHours),
               fuel_added := _to_float fa 0, full_tank := ft,
               calculated_current_fuel := if ft then r.fuelCapacity
                 else _clamp (r.currentFuel -
                     max 0 (_to_float nh r.engineHours - r.engineHours) *
                       r.fuelUsagePerHour + _to_float fa 0)
                   0 r.fuelCapacity,
               user_id := uid, username := un.getD "" }] } := by
  induction pre with
  | nil =>
    simp only [List.nil_append, update_object_fuel_with_calc, updateRows, hr,
      beq_self_eq_true, if_true]
  | cons a as ih =>
    have ha : a.objectId ≠ oid := hpre a (by simp)
    have has : ∀ x ∈ as, x.objectId ≠ oid := fun x hx => hpre x (by simp [hx])
    simp only [List.cons_append, update_object_fuel_with_calc, updateRows,
      beq_iff_eq, ha, if_false, List.append_eq]
    rw [show updateRows oid nh fa ft uid un logs (as ++ r :: post)
        = update_object_fuel_with_calc (as ++ r :: post) logs oid nh fa ft uid un
        from rfl, ih has]
    split <;> rfl

/-- C1: after every successful reading commit on a row with non-negative
capacity, the written fuel level lies in `[0, capacity]`, whatever the fuel
added and however large the computed burn. -/
theorem update_preserves_fuel_bounds (pre post : List ObjRow) (r : ObjRow)
    (oid : String) (nh fa : PyVal) (ft : Bool) (uid : ℤ) (un : Option String)
    (logs : List LogEntry)
    (hpre : ∀ x ∈ pre, x.objectId ≠ oid) (hr : r.objectId = oid)
    (hcap : 0 ≤ r.fuelCapacity)
    (hmono : ¬ _to_float nh r.engineHours < r.engineHours) :
    ∃ v : ℚ, 0 ≤ v ∧ v ≤ r.fuelCapacity ∧
      (update_object_fuel_with_calc (pre ++ r :: post) logs oid nh fa ft uid
          un).error = none ∧
      (update_object_fuel_with_calc (pre ++ r :: post) logs oid nh fa ft uid
          un).ok = true ∧
      (update_object_fuel_with_calc (pre ++ r :: post) logs oid nh fa ft uid
          un).table =
        pre ++ { r with engineHours := _to_float nh r.engineHours,
                        currentFuel := v } :: post := by
  rw [update_found pre post r oid nh fa ft uid un logs hpre hr, if_neg hmono]
  refine ⟨_, ?_, ?_, rfl, rfl, rfl⟩
  · split
    · exact hcap
    · exact le_max_left 0 _
  · split
    · exact le_refl _
    · exact max_le hcap (min_le_left _ _)

/-- Closed instance of C1: fuel added far beyond the remaining capacity is
clamped to the tank size. -/
theorem update_preserves_fuel_bounds_witness :
    (∀ x ∈ ([] : List ObjRow), x.objectId ≠ "US0001") ∧
    (0 : ℚ) ≤ 300 ∧
    ¬ _to_float (.num 710) (700 : ℚ) < 700 ∧
    ∃ v : ℚ, 0 ≤ v ∧ v ≤ (300 : ℚ) ∧
      (update_object_fuel_with_calc ([] ++ ⟨"US0001", 700, 300, 50, 5⟩ :: [])
          [] "US0001" (.num 710) (.num 10000) false 1 none).error = none ∧
      (update_object_fuel_with_calc ([] ++ ⟨"US0001", 700, 300, 50, 5⟩ :: [])
          [] "US0001" (.num 710) (.num 10000) false 1 none).ok = true ∧
      (update_object_fuel_with_calc ([] ++ ⟨"US0001", 700, 300, 50, 5⟩ :: [])
          [] "US0001" (.num 710) (.num 10000) false 1 none).table =
        [] ++ { ObjRow.mk "US0001" 700 300 50 5 with
                  engineHours := _to_float (.num 710) (700 : ℚ),
                  currentFuel := v } :: [] :=
  ⟨by simp, by decide, by decide,
    update_preserves_fuel_bounds [] [] ⟨"US0001", 700, 300, 50, 5⟩ "US0001"
      (.num 710) (.num 10000) false 1 none [] (by simp) rfl (by decide)
      (by decide)⟩

/-- C2: on an existing object the commit raises exactly when the new hours
are below the stored hours; the error carries the rejected value and the
stored minimum, and when it is raised no object field is written and no log
row is appended. -/
theorem mono_error_iff_no_writes (pre post : List ObjRow) (r : ObjRow)
    (oid : String) (q : ℚ) (fa : PyVal) (ft : Bool) (uid : ℤ)
    (un : Option String) (logs : List LogEntry)
    (hpre : ∀ x ∈ pre, x.objectId ≠ oid) (hr : r.objectId = oid) :
    ((update_object_fuel_with_calc (pre ++ r :: post) logs oid (.num q) fa ft
        uid un).error.isSome = true ↔ q < r.engineHours) ∧
    ∀ e, (update_object_fuel_with_calc (pre ++ r :: post) logs oid (.num q) fa
        ft uid un).error = some e →
      e.rejected = q ∧ e.minAccept = r.engineHours ∧
      (update_object_fuel_with_calc (pre ++ r :: post) logs oid (.num q) fa ft
          uid un).table = pre ++ r :: post ∧
      (update_object_fuel_with_calc (pre ++ r :: post) logs oid (.num q) fa ft
          uid un).logs = logs := by
  rw [update_found pre post r oid (.num q) fa ft uid un logs hpre hr]
  by_cases h : q < r.engineHours
  · simp [_to_float, h]
  · simp [_to_float, h]

/-- Closed instance of C2: submitting 690 against stored hours 700 raises
with both values and leaves both worksheets unchanged. -/
theorem mono_error_iff_no_writes_witness :
    (∀ x ∈ ([] : List ObjRow), x.objectId ≠ "US0001") ∧
    (((update_object_fuel_with_calc ([] ++ ⟨"US0001", 700, 300, 50, 5⟩ :: [])
        [] "US0001" (.num 690) (.num 0) false 1 none).error.isSome = true ↔
        (690 : ℚ) < (ObjRow.mk "US0001" 700 300 50 5).engineHours) ∧
      ∀ e, (update_object_fuel_with_calc ([] ++ ⟨"US0001", 700, 300, 50, 5⟩ :: [])
          [] "US0001" (.num 690) (.num 0) false 1 none).error = some e →
        e.rejected = 690 ∧ e.minAccept = (ObjRow.mk "US0001" 700 300 50 5).engineHours ∧
        (update_object_fuel_with_calc ([] ++ ⟨"US0001", 700, 300, 50, 5⟩ :: [])
            [] "US0001" (.num 690) (.num 0) false 1 none).table =
          [] ++ ⟨"US0001", 700, 300, 50, 5⟩ :: [] ∧
        (update_object_fuel_with_calc ([] ++ ⟨"US0001", 700, 300, 50, 5⟩ :: [])
            [] "US0001" (.num 690) (.num 0) false 1 none).logs = []) :=
  ⟨by simp,
    mono_error_iff_no_writes [] [] ⟨"US0001", 700, 300, 50, 5⟩ "US0001" 690
      (.num 0) false 1 none [] (by simp) rfl⟩

/-- C4: a successful full-tank commit sets the fuel level to the capacity
exactly, whatever `fuel_added` and the computed burn, and stores the new
hours. -/
theorem full_tank_sets_capacity (pre post : List ObjRow) (r : ObjRow)
    (oid : String) (q : ℚ) (fa : PyVal) (uid : ℤ) (un : Option String)
    (logs : List LogEntry)
    (hpre : ∀ x ∈ pre, x.objectId ≠ oid) (hr : r.objectId = oid)
    (hmono : ¬ q < r.engineHours) :
    (update_object_fuel_with_calc (pre ++ r :: post) logs oid (.num q) fa true
        uid un).error = none ∧
    (update_object_fuel_with_calc (pre ++ r :: post) logs oid (.num q) fa true
        uid un).ok = true ∧
    (update_object_fuel_with_calc (pre ++ r :: post) logs oid (.num q) fa true
        uid un).table =
      pre ++ { r with engineHours := q, currentFuel := r.fuelCapacity } :: post := by
  rw [update_found pre post r oid (.num q) fa true uid un logs hpre hr]
  simp [_to_float, hmono]

/-- Closed instance of C4 (spec scenario): hours 700 to 720 with no fuel
added and a full tank yields fuel 300 and hours 720. -/
theorem full_tank_sets_capacity_witness :
    (∀ x ∈ ([] : List ObjRow), x.objectId ≠ "US0001") ∧
    ¬ (720 : ℚ) < (ObjRow.mk "US0001" 700 300 50 5).engineHours ∧
    ((update_object_fuel_with_calc ([] ++ ⟨"US0001", 700, 300, 50, 5⟩ :: [])
        [] "US0001" (.num 720) (.num 0) true 1 none).error = none ∧
      (update_object_fuel_with_calc ([] ++ ⟨"US0001", 700, 300, 50, 5⟩ :: [])
          [] "US0001" (.num 720) (.num 0) true 1 none).ok = true ∧
      (update_object_fuel_with_calc ([] ++ ⟨"US0001", 700, 300, 50, 5⟩ :: [])
          [] "US0001" (.num 720) (.num 0) true 1 none).table =
        [] ++ { ObjRow.mk "US0001" 700 300 50 5 with
                  engineHours := (720 : ℚ), currentFuel := (300 : ℚ) } :: []) :=
  ⟨by simp, by decide,
    full_tank_sets_capacity [] [] ⟨"US0001", 700, 300, 50, 5⟩ "US0001" 720
      (.num 0) 1 none [] (by simp) rfl (by decide)⟩

/-- C5: a successful non-full-tank commit applies
`delta_hours = max(0, new - prev)`, `burned = delta_hours * usage`,
`next = clamp(prev_fuel - burned + added, 0, capacity)`, stores the new
hours, and logs the same derived values. -/
theorem update_fuel_formula (pre post : List ObjRow) (r : ObjRow)
    (oid : String) (q fa : ℚ) (uid : ℤ) (un : Option String)
    (logs : List LogEntry)
    (hpre : ∀ x ∈ pre, x.objectId ≠ oid) (hr : r.objectId = oid)
    (hmono : ¬ q < r.engineHours) :
    (update_object_fuel_with_calc (pre ++ r :: post) logs oid (.num q)
        (.num fa) false uid un).error = none ∧
    (update_object_fuel_with_calc (pre ++ r :: post) logs oid (.num q)
        (.num fa) false uid un).ok = true ∧
    (update_object_fuel_with_calc (pre ++ r :: post) logs oid (.num q)
        (.num fa) false uid un).table =
      pre ++ { r with engineHours := q,
                      currentFuel := _clamp
                        (r.currentFuel - max 0 (q - r.engineHours) *
                          r.fuelUsagePerHour + fa) 0 r.fuelCapacity } :: post ∧
    (update_object_fuel_with_calc (pre ++ r :: post) logs oid (.num q)
        (.num fa) false uid un).logs =
      logs ++ [{ object_id := oid, prev_hours := r.engineHours, new_hours := q,
                 hours_delta := max 0 (q - r.engineHours), fuel_added := fa,
                 full_tank := false,
                 calculated_current_fuel := _clamp
                   (r.currentFuel - max 0 (q - r.engineHours) *
                     r.fuelUsagePerHour + fa) 0 r.fuelCapacity,
                 user_id := uid, username := un.getD "" }] := by
  rw [update_found pre post r oid (.num q) (.num fa) false uid un logs hpre hr]
  simp [_to_float, hmono]

/-- Closed instance of C5 (spec scenario): from hours 700, capacity 300,
fuel 50, usage 5, the reading 710 with 20 litres added yields fuel
`clamp(50 - 10 * 5 + 20, 0, 300) = 20` and hours 710. -/
theorem update_fuel_formula_witness :
    (∀ x ∈ ([] : List ObjRow), x.objectId ≠ "US0001") ∧
    ¬ (710 : ℚ) < (ObjRow.mk "US0001" 700 300 50 5).engineHours ∧
    _clamp ((50 : ℚ) - max 0 ((710 : ℚ) - 700) * 5 + 20) 0 300 = 20 ∧
    ((update_object_fuel_with_calc ([] ++ ⟨"US0001", 700, 300, 50, 5⟩ :: [])
        [] "US0001" (.num 710) (.num 20) false 1 none).error = none ∧
      (update_object_fuel_with_calc ([] ++ ⟨"US0001", 700, 300, 50, 5⟩ :: [])
          [] "US0001" (.num 710) (.num 20) false 1 none).ok = true ∧
      (update_object_fuel_with_calc ([] ++ ⟨"US0001", 700, 300, 50, 5⟩ :: [])
          [] "US0001" (.num 710) (.num 20) false 1 none).table =
        [] ++ { ObjRow.mk "US0001" 700 300 50 5 with
                  engineHours := (710 : ℚ),
                  currentFuel := _clamp
                    ((50 : ℚ) - max 0 ((710 : ℚ) - 700) * 5 + 20) 0 300 } :: [] ∧
      (update_object_fuel_with_calc ([] ++ ⟨"US0001", 700, 300, 50, 5⟩ :: [])
          [] "US0001" (.num 710) (.num 20) false 1 none).logs =
        [] ++ [{ object_id := "US0001", prev_hours := (700 : ℚ),
                 new_hours := (710 : ℚ),
                 hours_delta := max 0 ((710 : ℚ) - 700), fuel_added := (20 : ℚ),
                 full_tank := false,
                 calculated_current_fuel := _clamp
                   ((50 : ℚ) - max 0 ((710 : ℚ) - 700) * 5 + 20) 0 300,
                 user_id := 1, username := "" }]) :=
  ⟨by simp, by decide, by norm_num [_clamp],
    update_fuel_formula [] [] ⟨"US0001", 700, 300, 50, 5⟩ "US0001" 710 20 1
      none [] (by simp) rfl (by decide)⟩

/-- Lemma: `_to_float` on string input returns the default when the stripped text
is empty or the cleaned text does not parse. -/
lemma to_float_default_of_fail (s : String) (d : ℚ)
    (hfail : pyStripChars s.data = [] ∨
      parseDec (pyCleanChars (pyStripChars s.data)) = none) :
    _to_float (.str s) d = d := by
  rcases hfail with h | h
  · simp [_to_float, h]
  · by_cases he : (pyStripChars s.data).isEmpty
    · simp [_to_float, he]
    · simp [_to_float, he, h]

/-- C10: when the engine-hours argument is empty or unparseable text, the
commit does not raise and does not reject: the value defaults to the stored
hours, so the hours stay unchanged, the logged delta is 0, and the fuel
arithmetic runs with zero burn. -/
theorem unparseable_hours_defaults (pre post : List ObjRow) (r : ObjRow)
    (oid : String) (s : String) (fa : PyVal) (ft : Bool) (uid : ℤ)
    (un : Option String) (logs : List LogEntry)
    (hpre : ∀ x ∈ pre, x.objectId ≠ oid) (hr : r.objectId = oid)
    (hfail : pyStripChars s.data = [] ∨
      parseDec (pyCleanChars (pyStripChars s.data)) = none) :
    (update_object_fuel_with_calc (pre ++ r :: post) logs oid (.str s) fa ft
        uid un).error = none ∧
    (update_object_fuel_with_calc (pre ++ r :: post) logs oid (.str s) fa ft
        uid un).ok = true ∧
    (update_object_fuel_with_calc (pre ++ r :: post) logs oid (.str s) fa ft
        uid un).table =
      pre ++ { r with currentFuel := (if ft then r.fuelCapacity
                        else _clamp (r.currentFuel + _to_float fa 0)
                          0 r.fuelCapacity) } :: post ∧
    (update_object_fuel_with_calc (pre ++ r :: post) logs oid (.str s) fa ft
        uid un).logs =
      logs ++ [{ object_id := oid, prev_hours := r.engineHours,
                 new_hours := r.engineHours, hours_delta := 0,
                 fuel_added := _to_float fa 0, full_tank := ft,
                 calculated_current_fuel := if ft then r.fuelCapacity
                   else _clamp (r.currentFuel + _to_float fa 0)
                     0 r.fuelCapacity,
                 user_id := uid, username := un.getD "" }] := by
  rw [update_found pre post r oid (.str s) fa ft uid un logs hpre hr]
  rw [to_float_default_of_fail s r.engineHours hfail]
  simp [lt_irrefl]

/-- Closed instance of C10: the text reading `abc` leaves hours at 700 and
adds the 20 litres with zero burn. -/
theorem unparseable_hours_defaults_witness :
    (∀ x ∈ ([] : List ObjRow), x.objectId ≠ "US0001") ∧
    parseDec (pyCleanChars (pyStripChars ("abc" : String).data)) = none ∧
    ((update_object_fuel_with_calc ([] ++ ⟨"US0001", 700, 300, 50, 5⟩ :: [])
        [] "US0001" (.str "abc") (.num 20) false 1 none).error = none ∧
      (update_object_fuel_with_calc ([] ++ ⟨"US0001", 700, 300, 50, 5⟩ :: [])
          [] "US0001" (.str "abc") (.num 20) false 1 none).ok = true ∧
      (update_object_fuel_with_calc ([] ++ ⟨"US0001", 700, 300, 50, 5⟩ :: [])
          [] "US0001" (.str "abc") (.num 20) false 1 none).table =
        [] ++ { ObjRow.mk "US0001" 700 300 50 5 with
                  currentFuel := if false then (300 : ℚ)
                    else _clamp ((50 : ℚ) + _to_float (.num 20) 0) 0 300 } :: [] ∧
      (update_object_fuel_with_calc ([] ++ ⟨"US0001", 700, 300, 50, 5⟩ :: [])
          [] "US0001" (.str "abc") (.num 20) false 1 none).logs =
        [] ++ [{ object_id := "US0001", prev_hours := (700 : ℚ),
                 new_hours := (700 : ℚ), hours_delta := 0,
                 fuel_added := _to_float (.num 20) 0, full_tank := false,
                 calculated_current_fuel := if false then (300 : ℚ)
                   else _clamp ((50 : ℚ) + _to_float (.num 20) 0) 0 300,
                 user_id := 1, username := "" }]) :=
  ⟨by simp, by decide,
    unparseable_hours_defaults [] [] ⟨"US0001", 700, 300, 50, 5⟩ "US0001"
      "abc" (.num 20) false 1 none [] (by simp) rfl (Or.inr (by decide))⟩

/-- C3 (counterexample): at the same stored minimum `700` and rejected entry
`690`, the entry-time re-prompt and the commit-time error as shown to the
user are different message shapes — the commit-time one interpolates the
rejected value, the entry-time one does not. -/
theorem mono_msgs_differ :
    entry_mono_msg "700" ≠ commit_mono_user_msg "690.0" "700" := by decide

/-- C3 (amended): the entry-time check of `bot.enter_engine_hours` and the
commit-time check of `sheets.update_object_fuel_with_calc` enforce the same
rule — reject exactly when the entered hours are below the stored hours. -/
theorem mono_rule_entry_commit_agree (r : ObjRow) (text : String) (e : ℚ)
    (fa : PyVal) (ft : Bool) (uid : ℤ) (un : Option String)
    (logs : List LogEntry)
    (hclean : pyStrip r.objectId = r.objectId)
    (hparse : parse_entered_hours text = some e) :
    (∃ m, enter_engine_hours text [r] r.objectId = .reprompt_mono m) ↔
      (update_object_fuel_with_calc [r] logs r.objectId (.num e) fa ft uid
        un).error.isSome = true := by
  have hfind : List.find? (fun o => pyStrip o.objectId == r.objectId) [r]
      = some r := by
    simp [List.find?, hclean]
  have hentry : (∃ m, enter_engine_hours text [r] r.objectId
      = .reprompt_mono m) ↔ e < r.engineHours := by
    unfold enter_engine_hours
    rw [hparse, hfind]
    by_cases h : e < r.engineHours <;> simp [h]
  have hupd := update_found [] [] r r.objectId (.num e) fa ft uid un logs
    (by simp) rfl
  rw [show (([] : List ObjRow) ++ r :: []) = [r] from rfl] at hupd
  have hcommit : (update_object_fuel_with_calc [r] logs r.objectId (.num e)
      fa ft uid un).error.isSome = true ↔ e < r.engineHours := by
    rw [hupd]
    by_cases h : e < r.engineHours <;> simp [_to_float, h]
  exact hentry.trans hcommit.symm

/-- Closed instance of the amended C3: entering `690` against stored hours
`700` is rejected by both checks. -/
theorem mono_rule_entry_commit_agree_witness :
    pyStrip "US0001" = "US0001" ∧
    parse_entered_hours "690" = some 690 ∧
    ((∃ m, enter_engine_hours "690" [⟨"US0001", 700, 300, 50, 5⟩] "US0001"
        = .reprompt_mono m) ↔
      (update_object_fuel_with_calc [⟨"US0001", 700, 300, 50, 5⟩] [] "US0001"
        (.num 690) (.num 0) false 1 none).error.isSome = true) :=
  ⟨by decide, by with_unfolding_all decide,
    mono_rule_entry_commit_agree ⟨"US0001", 700, 300, 50, 5⟩ "690" 690
      (.num 0) false 1 none [] (by decide) (by with_unfolding_all decide)⟩

/-- The lookup of `updateRows` succeeds (returns `True` or raises) exactly
when some row's ObjectID equals the queried id verbatim. -/
lemma updateRows_found_iff (oid : String) (nh fa : PyVal) (ft : Bool)
    (uid : ℤ) (un : Option String) (logs : List LogEntry) :
    ∀ table : List ObjRow,
      ((updateRows oid nh fa ft uid un logs table).ok = true ∨
        (updateRows oid nh fa ft uid un logs table).error.isSome = true) ↔
      ∃ r ∈ table, r.objectId = oid := by
  intro table
  induction table with
  | nil => simp [updateRows]
  | cons a as ih =>
    by_cases h : a.objectId = oid
    · simp only [updateRows, h, beq_self_eq_true, if_true]
      split
      · simp [h]
      · simp [h]
    · simp only [updateRows, beq_iff_eq, h, if_false]
      simpa [h] using ih

/-- Lemma: `delete_object` reports success exactly on a verbatim id match. -/
lemma delete_found_iff (oid : String) : ∀ table : List ObjRow,
    (delete_object table oid).2 = true ↔ ∃ r ∈ table, r.objectId = oid := by
  intro table
  induction table with
  | nil => simp [delete_object]
  | cons a as ih =>
    by_cases h : a.objectId = oid <;>
      simp [delete_object, h, ih]

/-- Lemma: `update_capacity` reports success exactly on a verbatim id match. -/
lemma capacity_found_iff (oid : String) (c : ℚ) : ∀ table : List ObjRow,
    (update_capacity table oid c).2 = true ↔ ∃ r ∈ table, r.objectId = oid := by
  intro table
  induction table with
  | nil => simp [update_capacity]
  | cons a as ih =>
    by_cases h : a.objectId = oid <;>
      simp [update_capacity, h, ih]

/-- Lemma: `update_usage` reports success exactly on a verbatim id match. -/
lemma usage_found_iff (oid : String) (u : ℚ) : ∀ table : List ObjRow,
    (update_usage table oid u).2 = true ↔ ∃ r ∈ table, r.objectId = oid := by
  intro table
  induction table with
  | nil => simp [update_usage]
  | cons a as ih =>
    by_cases h : a.objectId = oid <;>
      simp [update_usage, h, ih]

/-- C8 (counterexample): the store-adapter lookups do no trimming — an id
that differs from the stored one only by surrounding whitespace is equal to
it after trimming yet is not found. -/
theorem lookup_requires_exact_id :
    pyStrip "US0001 " = pyStrip "US0001" ∧
    (delete_object [⟨"US0001 ", 0, 0, 0, 0⟩] "US0001").2 = false ∧
    (delete_object [⟨"us0001", 0, 0, 0, 0⟩] "US0001").2 = false :=
  ⟨by decide, by decide, by decide⟩

/-- C8 (amended): every store-adapter lookup (`update_object_fuel_with_calc`,
`delete_object`, `update_capacity`, `update_usage`) compares ids as exact
case-sensitive string matches with no trimming: it finds a row exactly when
a stored id equals the queried id verbatim. -/
theorem lookup_exact_match_iff (table : List ObjRow) (oid : String)
    (c u : ℚ) (nh fa : PyVal) (ft : Bool) (uid : ℤ) (un : Option String)
    (logs : List LogEntry) :
    ((delete_object table oid).2 = true ↔ ∃ r ∈ table, r.objectId = oid) ∧
    ((update_capacity table oid c).2 = true ↔ ∃ r ∈ table, r.objectId = oid) ∧
    ((update_usage table oid u).2 = true ↔ ∃ r ∈ table, r.objectId = oid) ∧
    (((update_object_fuel_with_calc table logs oid nh fa ft uid un).ok = true ∨
        (update_object_fuel_with_calc table logs oid nh fa ft uid
          un).error.isSome = true) ↔ ∃ r ∈ table, r.objectId = oid) :=
  ⟨delete_found_iff oid table, capacity_found_iff oid c table,
    usage_found_iff oid u table, updateRows_found_iff oid nh fa ft uid un logs table⟩

instance : IsTotal (String × ℚ) (fun a b => a.1 ≤ b.1) :=
  ⟨fun a b => le_total a.1 b.1⟩

instance : IsTrans (String × ℚ) (fun a b => a.1 ≤ b.1) :=
  ⟨fun _ _ _ h1 h2 => le_trans h1 h2⟩

/-- The collection loop of `shortage_report` keeps exactly the records with a
non-empty trimmed id and a positive amount to full. -/
lemma shortage_unsorted_eq (objects : List ObjRow) :
    shortage_rows_unsorted objects =
      (objects.filter (fun o =>
        decide (pyStrip o.objectId ≠ "" ∧ 0 < amount_to_full o))).map
        (fun o => (pyStrip o.objectId, amount_to_full o)) := by
  induction objects with
  | nil => rfl
  | cons a as ih =>
    simp only [shortage_rows_unsorted] at ih ⊢
    simp only [List.filterMap_cons]
    by_cases h : pyStrip a.objectId ≠ "" ∧ 0 < amount_to_full a
    · rw [if_pos h]
      simp only [List.filter_cons, decide_eq_true_eq, if_pos h, List.map_cons]
      exact congrArg _ ih
    · rw [if_neg h]
      simp only [List.filter_cons, decide_eq_true_eq, if_neg h]
      exact ih

/-- C6 (counterexample): a record with a blank identifier and a strictly
positive amount to full is not listed by the shortage report. -/
theorem shortage_skips_blank_id :
    0 < amount_to_full ⟨"", 0, 10, 0, 0⟩ ∧
    (shortage_report [⟨"", 0, 10, 0, 0⟩]).1 = [] := by
  constructor
  · norm_num [amount_to_full, cur_disp]
  · rfl

/-- C6 (amended): the shortage report lists exactly the records with a
non-empty trimmed identifier and a strictly positive `amount_to_full`,
sorted ascending by identifier, and the reported total equals the exact sum
of the listed amounts. -/
theorem shortage_rows_spec (objects : List ObjRow) :
    (shortage_report objects).1.Perm
      ((objects.filter (fun o =>
        decide (pyStrip o.objectId ≠ "" ∧ 0 < amount_to_full o))).map
        (fun o => (pyStrip o.objectId, amount_to_full o))) ∧
    List.Sorted (fun a b : String × ℚ => a.1 ≤ b.1)
      (shortage_report objects).1 ∧
    (shortage_report objects).2 =
      ((shortage_report objects).1.map Prod.snd).sum := by
  refine ⟨?_, ?_, ?_⟩
  · rw [← shortage_unsorted_eq]
    exact List.perm_insertionSort _ _
  · exact List.sorted_insertionSort _ _
  · have hp : (shortage_report objects).1.Perm (shortage_rows_unsorted objects) :=
      List.perm_insertionSort _ _
    have hs := (hp.map Prod.snd).sum_eq
    simpa [shortage_report] using hs.symm

lemma splitNL_ne_nil (l : List Char) : splitNL l ≠ [] := by
  induction l with
  | nil => simp [splitNL]
  | cons c cs ih =>
    simp only [splitNL]
    by_cases hc : c = '\n'
    · simp [hc]
    · rw [if_neg hc]
      cases e : splitNL cs with
      | nil => simp
      | cons t ts => simp

lemma splitNL_no_newline (l : List Char) : ∀ t ∈ splitNL l, '\n' ∉ t := by
  induction l with
  | nil =>
    intro t ht
    simp only [splitNL, List.mem_singleton] at ht
    simp [ht]
  | cons c cs ih =>
    intro t ht
    simp only [splitNL] at ht
    by_cases hc : c = '\n'
    · rw [if_pos hc] at ht
      rcases List.mem_cons.mp ht with h | h
      · simp [h]
      · exact ih t h
    · rw [if_neg hc] at ht
      cases e : splitNL cs with
      | nil => exact absurd e (splitNL_ne_nil cs)
      | cons t0 ts =>
        rw [e] at ht
        rcases List.mem_cons.mp ht with h | h
        · subst h
          intro hmem
          rcases List.mem_cons.mp hmem with h1 | h1
          · exact hc h1.symm
          · exact ih t0 (e ▸ List.mem_cons_self t0 ts) h1
        · exact ih t (e ▸ List.mem_cons.mpr (Or.inr h))

lemma joinNL_cons_of_ne (x : List Char) (G : List (List Char)) (h : G ≠ []) :
    joinNL (x :: G) = x ++ '\n' :: joinNL G := by
  cases G with
  | nil => exact absurd rfl h
  | cons y ys => rfl

lemma joinNL_splitNL (l : List Char) : joinNL (splitNL l) = l := by
  induction l with
  | nil => rfl
  | cons c cs ih =>
    simp only [splitNL]
    by_cases hc : c = '\n'
    · rw [if_pos hc, joinNL_cons_of_ne [] _ (splitNL_ne_nil cs), ih, hc]
      rfl
    · rw [if_neg hc]
      cases e : splitNL cs with
      | nil => exact absurd e (splitNL_ne_nil cs)
      | cons t ts =>
        rw [e] at ih
        cases ts with
        | nil =>
          simp only [joinNL] at ih ⊢
          rw [ih]
        | cons u us =>
          rw [joinNL_cons_of_ne (c :: t) _ (by simp),
            joinNL_cons_of_ne t _ (by simp)] at *
          simp only [List.cons_append]
          rw [show t ++ '\n' :: joinNL (u :: us) = cs from ih]

lemma joinNL_append_of_ne (A B : List (List Char)) (hA : A ≠ []) (hB : B ≠ []) :
    joinNL (A ++ B) = joinNL A ++ '\n' :: joinNL B := by
  induction A with
  | nil => exact absurd rfl hA
  | cons a as ih =>
    cases as with
    | nil =>
      rw [List.singleton_append, joinNL_cons_of_ne a B hB]
      rfl
    | cons b bs =>
      rw [List.cons_append, joinNL_cons_of_ne a _ (by simp),
        joinNL_cons_of_ne a (b :: bs) (by simp), ih (by simp)]
      simp

/-- Length bookkeeping of `send_long_text`: the `length` counter equals the
sum of `len(line) + 1` over the chunk. -/
def chunkLenFn (chunk : List (List Char)) : ℕ :=
  (chunk.map (fun l => l.length + 1)).sum

lemma joinNL_length (chunk : List (List Char)) (h : chunk ≠ []) :
    (joinNL chunk).length + 1 = chunkLenFn chunk := by
  induction chunk with
  | nil => exact absurd rfl h
  | cons t ts ih =>
    cases ts with
    | nil => simp [joinNL, chunkLenFn]
    | cons u us =>
      rw [joinNL_cons_of_ne t _ (by simp)]
      have h2 := ih (by simp)
      simp only [chunkLenFn, List.map_cons, List.sum_cons, List.length_append,
        List.length_cons] at h2 ⊢
      omega

lemma sendChunks_append_acc (ls : List (List Char)) :
    ∀ chunk length acc, sendChunks ls chunk length acc
      = acc ++ sendChunks ls chunk length [] := by
  induction ls with
  | nil => intro chunk length acc; simp [sendChunks]
  | cons l ls ih =>
    intro chunk length acc
    simp only [sendChunks]
    by_cases h : length + (l.length + 1) > TELEGRAM_MAX_LEN
    · rw [if_pos h, if_pos h, ih _ _ (acc ++ emitChunk chunk),
        ih _ _ ([] ++ emitChunk chunk)]
      simp
    · rw [if_neg h, if_neg h, ih _ _ acc]

lemma sendChunks_ne_nil (ls : List (List Char)) :
    ∀ chunk length, chunk ≠ [] → sendChunks ls chunk length [] ≠ [] := by
  induction ls with
  | nil =>
    intro chunk length h
    simp [sendChunks, emitChunk, h]
  | cons l ls ih =>
    intro chunk length h
    simp only [sendChunks]
    by_cases hc : length + (l.length + 1) > TELEGRAM_MAX_LEN
    · rw [if_pos hc, sendChunks_append_acc]
      intro habs
      exact ih [l] (l.length + 1) (by simp) (List.append_eq_nil.mp habs).2
    · rw [if_neg hc]
      exact ih _ _ (by simp)

lemma sendChunks_join (ls : List (List Char)) :
    ∀ chunk length, chunk ≠ [] →
      joinNL (sendChunks ls chunk length []) = joinNL (chunk ++ ls) := by
  induction ls with
  | nil =>
    intro chunk length h
    simp [sendChunks, emitChunk, h, joinNL]
  | cons l ls ih =>
    intro chunk length h
    simp only [sendChunks]
    by_cases hc : length + (l.length + 1) > TELEGRAM_MAX_LEN
    · rw [if_pos hc, sendChunks_append_acc, List.nil_append,
        joinNL_append_of_ne (emitChunk chunk) _
          (by simp [emitChunk, h])
          (sendChunks_ne_nil ls [l] (l.length + 1) (by simp))]
      rw [ih [l] (l.length + 1) (by simp), List.singleton_append]
      simp only [emitChunk, h, if_neg (by simp [h] : ¬ chunk.isEmpty = true)]
      rw [show joinNL [joinNL chunk] = joinNL chunk from rfl,
        ← joinNL_append_of_ne chunk (l :: ls) h (by simp)]
    · rw [if_neg hc, ih (chunk ++ [l]) _ (by simp)]
      simp

lemma sendChunks_bound (ls : List (List Char)) :
    ∀ chunk length acc,
      (∀ t ∈ ls, '\n' ∉ t) →
      length = chunkLenFn chunk →
      (chunk ≠ [] → length ≤ TELEGRAM_MAX_LEN ∨
        ∃ l0, chunk = [l0] ∧ '\n' ∉ l0) →
      (∀ m ∈ acc, m.length ≤ TELEGRAM_MAX_LEN ∨ '\n' ∉ m) →
      ∀ m ∈ sendChunks ls chunk length acc,
        m.length ≤ TELEGRAM_MAX_LEN ∨ '\n' ∉ m := by
  have hemit : ∀ chunk length,
      length = chunkLenFn chunk →
      (chunk ≠ [] → length ≤ TELEGRAM_MAX_LEN ∨
        ∃ l0, chunk = [l0] ∧ '\n' ∉ l0) →
      ∀ m ∈ emitChunk chunk, m.length ≤ TELEGRAM_MAX_LEN ∨ '\n' ∉ m := by
    intro chunk length hlen hch m hm
    by_cases h : chunk = []
    · simp [emitChunk, h] at hm
    · simp only [emitChunk, if_neg (by simp [h] : ¬ chunk.isEmpty = true),
        List.mem_singleton] at hm
      subst hm
      rcases hch h with hle | ⟨l0, he, hnl⟩
      · left
        have := joinNL_length chunk h
        omega
      · right
        subst he
        exact hnl
  induction ls with
  | nil =>
    intro chunk length acc _ hlen hch hacc m hm
    simp only [sendChunks, List.mem_append] at hm
    rcases hm with hm | hm
    · exact hacc m hm
    · exact hemit chunk length hlen hch m hm
  | cons l ls ih =>
    intro chunk length acc hnl hlen hch hacc m hm
    simp only [sendChunks] at hm
    have hl : '\n' ∉ l := hnl l (by simp)
    have hls : ∀ t ∈ ls, '\n' ∉ t := fun t ht => hnl t (by simp [ht])
    by_cases hc : length + (l.length + 1) > TELEGRAM_MAX_LEN
    · rw [if_pos hc] at hm
      refine ih [l] (l.length + 1) (acc ++ emitChunk chunk) hls
        (by simp [chunkLenFn]) (fun _ => Or.inr ⟨l, rfl, hl⟩) ?_ m hm
      intro x hx
      rcases List.mem_append.mp hx with hx | hx
      · exact hacc x hx
      · exact hemit chunk length hlen hch x hx
    · rw [if_neg hc] at hm
      refine ih (chunk ++ [l]) (length + (l.length + 1)) acc hls ?_ ?_ hacc m hm
      · simp [chunkLenFn, hlen]
      · intro _
        left
        omega

/-- First step of `send_long_text`: with an empty chunk and zero count the
first line is simply placed in the chunk (the flush on overflow sends
nothing). -/
lemma sendChunks_first (t : List Char) (ts : List (List Char)) :
    sendChunks (t :: ts) [] 0 [] = sendChunks ts [t] (t.length + 1) [] := by
  simp only [sendChunks]
  by_cases h : 0 + (t.length + 1) > TELEGRAM_MAX_LEN
  · rw [if_pos h]
    simp [emitChunk]
  · rw [if_neg h]
    simp

lemma splitNL_of_no_newline (l : List Char) (h : '\n' ∉ l) :
    splitNL l = [l] := by
  induction l with
  | nil => rfl
  | cons c cs ih =>
    have hc : ¬ c = '\n' := fun e => h (by simp [e])
    simp only [splitNL, if_neg hc, ih (fun hm => h (by simp [hm]))]

/-- C9 (counterexample): a text consisting of one line of 3901 characters is
sent as a single message of 3901 characters, exceeding the 3900 budget. -/
theorem send_long_text_oversize_line :
    send_long_text (List.replicate 3901 'a') = [List.replicate 3901 'a'] ∧
    ∃ m ∈ send_long_text (List.replicate 3901 'a'),
      TELEGRAM_MAX_LEN < m.length := by
  have hnl : '\n' ∉ List.replicate 3901 'a' := by
    intro h
    exact absurd (List.eq_of_mem_replicate h) (by decide)
  have hs : send_long_text (List.replicate 3901 'a')
      = [List.replicate 3901 'a'] := by
    unfold send_long_text
    rw [splitNL_of_no_newline _ hnl, sendChunks_first]
    rfl
  refine ⟨hs, List.replicate 3901 'a', ?_, ?_⟩
  · rw [hs]
    exact List.mem_singleton_self _
  · rw [List.length_replicate]
    decide

/-- C9 (amended): `send_long_text` splits only at line boundaries — joining
the sent messages with a newline reconstructs the text exactly — and every
sent message fits the 3900 budget except possibly a message consisting of a
single line that alone exceeds the budget (such a message contains no
newline). -/
theorem send_long_text_line_split (text : List Char) :
    joinNL (send_long_text text) = text ∧
    ∀ m ∈ send_long_text text, m.length ≤ TELEGRAM_MAX_LEN ∨ '\n' ∉ m := by
  obtain ⟨t, ts, e⟩ : ∃ t ts, splitNL text = t :: ts := by
    cases h : splitNL text with
    | nil => exact absurd h (splitNL_ne_nil text)
    | cons t ts => exact ⟨t, ts, rfl⟩
  have hlines := splitNL_no_newline text
  rw [e] at hlines
  constructor
  · unfold send_long_text
    rw [e, sendChunks_first, sendChunks_join ts [t] (t.length + 1) (by simp)]
    rw [show ([t] : List (List Char)) ++ ts = t :: ts from rfl, ← e]
    exact joinNL_splitNL text
  · intro m hm
    unfold send_long_text at hm
    rw [e, sendChunks_first] at hm
    refine sendChunks_bound ts [t] (t.length + 1) []
      (fun x hx => hlines x (by simp [hx])) (by simp [chunkLenFn])
      (fun _ => Or.inr ⟨t, rfl, hlines t (by simp)⟩) (by simp) m hm

/-- Closed instance of the amended C9 at a two-line text. -/
theorem send_long_text_line_split_witness :
    joinNL (send_long_text ['a', '\n', 'b']) = ['a', '\n', 'b'] ∧
    (['a', '\n', 'b'].length ≤ TELEGRAM_MAX_LEN ∨
      '\n' ∉ (['a', '\n', 'b'] : List Char)) :=
  ⟨(send_long_text_line_split ['a', '\n', 'b']).1,
    (send_long_text_line_split ['a', '\n', 'b']).2 ['a', '\n', 'b'] (by decide)⟩

lemma digitChar_isDigit (d : ℕ) (h : d < 10) :
    isDigitChar (digitChar d) = true := by
  interval_cases d <;> decide

lemma digitChar_toNat (d : ℕ) (h : d < 10) : (digitChar d).toNat - 48 = d := by
  interval_cases d <;> decide

lemma digit_ne (c c0 : Char) (h : isDigitChar c = true)
    (h0 : isDigitChar c0 = false) : c ≠ c0 := by
  intro e
  rw [e, h0] at h
  cases h

lemma digit_bounds (c : Char) (h : isDigitChar c = true) :
    48 ≤ c.toNat ∧ c.toNat ≤ 57 := by
  simpa [isDigitChar, Bool.and_eq_true, decide_eq_true_eq] using h

lemma digit_not_space (c : Char) (h : isDigitChar c = true) :
    pySpace c = false := by
  have hb := digit_bounds c h
  by_contra hs
  rw [Bool.not_eq_false] at hs
  simp only [pySpace, Bool.or_eq_true, beq_iff_eq] at hs
  rcases hs with ((((((e | e) | e) | e) | e) | e) | e) <;>
    (subst e; revert hb; decide)

lemma foldr_ofDigits (l : List ℕ) :
    l.foldr (fun d acc => acc * 10 + d) 0 = Nat.ofDigits 10 l := by
  induction l with
  | nil => rfl
  | cons d t ih =>
    rw [List.foldr_cons, ih, Nat.ofDigits_cons]
    ring

lemma charsToNat_rev_digits (l : List ℕ) (h : ∀ d ∈ l, d < 10) :
    charsToNat (l.reverse.map digitChar)
      = l.foldr (fun d acc => acc * 10 + d) 0 := by
  induction l with
  | nil => rfl
  | cons d t ih =>
    simp only [List.reverse_cons, List.map_append, List.map_cons, List.map_nil]
    rw [charsToNat, List.foldl_append]
    simp only [List.foldl_cons, List.foldl_nil]
    rw [← charsToNat, ih (fun x hx => h x (List.mem_cons_of_mem d hx))]
    simp only [List.foldr_cons]
    rw [digitChar_toNat d (h d (List.mem_cons_self d t))]

lemma natDigitsAux_eq (fuel : ℕ) : ∀ n ≤ fuel, natDigitsAux fuel n = Nat.digits 10 n := by
  induction fuel with
  | zero =>
    intro n hn
    interval_cases n
    simp [natDigitsAux]
  | succ f ih =>
    intro n hn
    cases n with
    | zero => simp [natDigitsAux]
    | succ m =>
      have hd : (m + 1) / 10 ≤ f := by
        have := Nat.div_lt_self (Nat.succ_pos m) (by norm_num : 1 < 10)
        omega
      rw [show natDigitsAux (f + 1) (m + 1)
          = (m + 1) % 10 :: natDigitsAux f ((m + 1) / 10) from rfl,
        ih _ hd, Nat.digits_def' (by norm_num : 1 < 10) (Nat.succ_pos m)]

lemma charsToNat_natToChars (n : ℕ) : charsToNat (natToChars n) = n := by
  by_cases h : n = 0
  · subst h
    decide
  · rw [natToChars, if_neg h, natDigitsAux_eq n n le_rfl,
      charsToNat_rev_digits _
        (fun d hd => Nat.digits_lt_base (by norm_num) hd),
      foldr_ofDigits, Nat.ofDigits_digits]

lemma natToChars_digits (n : ℕ) :
    ∀ c ∈ natToChars n, isDigitChar c = true := by
  intro c hc
  by_cases h : n = 0
  · subst h
    rw [show natToChars 0 = ['0'] from rfl] at hc
    rcases List.mem_singleton.mp hc with rfl
    decide
  · rw [natToChars, if_neg h, natDigitsAux_eq n n le_rfl] at hc
    rcases List.mem_map.mp hc with ⟨d, hd, rfl⟩
    exact digitChar_isDigit d
      (Nat.digits_lt_base (by norm_num) (List.mem_reverse.mp hd))

lemma natToChars_ne_nil (n : ℕ) : natToChars n ≠ [] := by
  by_cases h : n = 0
  · subst h
    decide
  · rw [natToChars, if_neg h, natDigitsAux_eq n n le_rfl]
    simp [Nat.digits_ne_nil_iff_ne_zero.mpr h]

lemma renderNat2_chars (m : ℕ) :
    ∀ c ∈ renderNat2 m, isDigitChar c = true ∨ c = '.' := by
  intro c hc
  rw [renderNat2] at hc
  rcases List.mem_append.mp hc with h | h
  · exact Or.inl (natToChars_digits _ c h)
  · rcases List.mem_cons.mp h with h1 | h1
    · exact Or.inr h1
    · rcases List.mem_cons.mp h1 with h2 | h2
      · exact Or.inl (h2 ▸ digitChar_isDigit _ (by omega))
      · rcases List.mem_singleton.mp h2 with rfl
        exact Or.inl (digitChar_isDigit _ (by omega))

lemma takeWhile_all_eq (p : Char → Bool) (l : List Char)
    (h : ∀ x ∈ l, p x = true) : l.takeWhile p = l ∧ l.dropWhile p = [] := by
  induction l with
  | nil => exact ⟨rfl, rfl⟩
  | cons a as ih =>
    have hpa : p a = true := h a (by simp)
    have h2 := ih (fun x hx => h x (by simp [hx]))
    rw [List.takeWhile_cons, List.dropWhile_cons]
    simp [hpa, h2.1, h2.2]

lemma takeWhile_middle (p : Char → Bool) (A : List Char) (d : Char)
    (F : List Char) (hA : ∀ x ∈ A, p x = true) (hd : p d = false) :
    (A ++ d :: F).takeWhile p = A ∧ (A ++ d :: F).dropWhile p = d :: F := by
  induction A with
  | nil => simp [List.takeWhile_cons, List.dropWhile_cons, hd]
  | cons a as ih =>
    have hpa : p a = true := hA a (by simp)
    have h2 := ih (fun x hx => hA x (by simp [hx]))
    simp [List.takeWhile_cons, List.dropWhile_cons, hpa, h2.1, h2.2]

lemma dropWhile_id_of_none (p : Char → Bool) (l : List Char)
    (h : ∀ x ∈ l, p x = false) : l.dropWhile p = l := by
  cases l with
  | nil => rfl
  | cons a as =>
    rw [List.dropWhile_cons, h a (by simp)]
    simp

lemma pyStripChars_id (l : List Char) (h : ∀ c ∈ l, pySpace c = false) :
    pyStripChars l = l := by
  rw [pyStripChars, dropWhile_id_of_none _ _ h,
    dropWhile_id_of_none _ _ (fun c hc => h c (List.mem_reverse.mp hc)),
    List.reverse_reverse]

lemma pyCleanChars_id (l : List Char)
    (h : ∀ c ∈ l, (c == ' ' || c == ' ') = false ∧ ¬ c = ',') :
    pyCleanChars l = l := by
  induction l with
  | nil => rfl
  | cons a as ih =>
    have ha := h a (by simp)
    have h2 : pyCleanChars as = as := ih (fun c hc => h c (by simp [hc]))
    simp only [pyCleanChars, List.filter_cons, ha.1, Bool.not_false, if_true,
      List.map_cons, if_neg ha.2] at h2 ⊢
    rw [show (if (a == ',') = true then '.' else a) = a by simp [ha.2], h2]

lemma charsToNat_two (a b : ℕ) (ha : a < 10) (hb : b < 10) :
    charsToNat [digitChar a, digitChar b] = a * 10 + b := by
  rw [charsToNat]
  simp only [List.foldl_cons, List.foldl_nil]
  rw [digitChar_toNat a ha, digitChar_toNat b hb]
  ring

lemma cast_div_add_mod_100 (m : ℕ) :
    ((m / 100 : ℕ) : ℚ) + ((m % 100 : ℕ) : ℚ) / 100 = (m : ℚ) / 100 := by
  have h := Nat.div_add_mod m 100
  have hc : ((100 * (m / 100) + m % 100 : ℕ) : ℚ) = (m : ℚ) := by
    exact_mod_cast congrArg (fun k : ℕ => (k : ℚ)) h
  push_cast at hc
  field_simp
  linarith

lemma parseMant_split (A F : List Char)
    (hA : ∀ x ∈ A, (!(x == '.')) = true) :
    parseMant (A ++ '.' :: F) =
      if (!(A.isEmpty && F.isEmpty) && A.all isDigitChar &&
          F.all isDigitChar) = true
      then some ((charsToNat A : ℚ) + (charsToNat F : ℚ) / (10 : ℚ) ^ F.length)
      else none := by
  have hsplit := takeWhile_middle (fun c => !(c == '.')) A '.' F hA (by decide)
  simp only [parseMant]
  rw [hsplit.1, hsplit.2]

lemma parseMant_renderNat2 (m : ℕ) :
    parseMant (renderNat2 m) = some ((m : ℚ) / 100) := by
  have hA : ∀ x ∈ natToChars (m / 100), (!(x == '.')) = true := by
    intro x hx
    have hd := natToChars_digits _ x hx
    simp only [Bool.not_eq_true', beq_eq_false_iff_ne]
    exact digit_ne x '.' hd (by decide)
  rw [show renderNat2 m = natToChars (m / 100) ++
    '.' :: [digitChar (m / 10 % 10), digitChar (m % 10)] from rfl]
  rw [parseMant_split _ _ hA]
  have hcond : (!((natToChars (m / 100)).isEmpty &&
        ([digitChar (m / 10 % 10), digitChar (m % 10)] : List Char).isEmpty) &&
      (natToChars (m / 100)).all isDigitChar &&
      ([digitChar (m / 10 % 10), digitChar (m % 10)] : List Char).all
        isDigitChar) = true := by
    simp only [Bool.and_eq_true, Bool.not_eq_true', Bool.and_eq_false_iff,
      List.all_eq_true]
    refine ⟨⟨Or.inl ?_, fun x hx => natToChars_digits _ x hx⟩, ?_⟩
    · simp [List.isEmpty_iff, natToChars_ne_nil]
    · intro x hx
      rcases List.mem_cons.mp hx with rfl | hx
      · exact digitChar_isDigit _ (by omega)
      · rcases List.mem_singleton.mp hx with rfl
        exact digitChar_isDigit _ (by omega)
  rw [hcond]
  simp only [if_true]
  rw [charsToNat_natToChars, charsToNat_two _ _ (by omega) (by omega)]
  have hmod : m / 10 % 10 * 10 + m % 10 = m % 100 := by omega
  rw [hmod]
  norm_num [cast_div_add_mod_100 m]

lemma parseUnsignedDec_no_exp (l : List Char)
    (h : ∀ x ∈ l, (!(x == 'e' || x == 'E')) = true) :
    parseUnsignedDec l = parseMant l := by
  have h2 := takeWhile_all_eq _ l h
  simp only [parseUnsignedDec]
  rw [h2.1, h2.2]

lemma parseDec_digit_head (c : Char) (rest : List Char)
    (hd : isDigitChar c = true) :
    parseDec (c :: rest) = parseUnsignedDec (c :: rest) := by
  unfold parseDec
  split
  · rename_i heq
    injection heq with h1 _
    subst h1
    exact absurd hd (by decide)
  · rename_i heq
    injection heq with h1 _
    subst h1
    exact absurd hd (by decide)
  · rfl

lemma renderNat2_no_space (m : ℕ) :
    ∀ c ∈ renderNat2 m, pySpace c = false := by
  intro c hc
  rcases renderNat2_chars m c hc with h | rfl
  · exact digit_not_space c h
  · decide

lemma renderNat2_clean_ok (m : ℕ) :
    ∀ c ∈ renderNat2 m, (c == ' ' || c == ' ') = false ∧ ¬ c = ',' := by
  intro c hc
  rcases renderNat2_chars m c hc with h | rfl
  · constructor
    · simp only [Bool.or_eq_false_iff, beq_eq_false_iff_ne]
      exact ⟨digit_ne c ' ' h (by decide), digit_ne c ' ' h (by decide)⟩
    · exact digit_ne c ',' h (by decide)
  · exact ⟨by decide, by decide⟩

lemma renderNat2_no_exp (m : ℕ) :
    ∀ x ∈ renderNat2 m, (!(x == 'e' || x == 'E')) = true := by
  intro x hx
  rcases renderNat2_chars m x hx with h | rfl
  · simp only [Bool.not_eq_true', Bool.or_eq_false_iff, beq_eq_false_iff_ne]
    exact ⟨digit_ne x 'e' h (by decide), digit_ne x 'E' h (by decide)⟩
  · decide

lemma renderNat2_ne_nil (m : ℕ) : (renderNat2 m).isEmpty = false := by
  rw [renderNat2]
  cases e : natToChars (m / 100) with
  | nil => exact absurd e (natToChars_ne_nil _)
  | cons c cs => rfl

lemma parse_clean_renderNat2 (m : ℕ) :
    parseDec (pyCleanChars (renderNat2 m)) = some ((m : ℚ) / 100) := by
  rw [pyCleanChars_id _ (renderNat2_clean_ok m)]
  obtain ⟨c, cs, e⟩ : ∃ c cs, renderNat2 m = c :: cs := by
    cases e : renderNat2 m with
    | nil =>
      have := renderNat2_ne_nil m
      rw [e] at this
      cases this
    | cons c cs => exact ⟨c, cs, rfl⟩
  have hcdig : isDigitChar c = true := by
    rcases renderNat2_chars m c (e ▸ List.mem_cons_self c cs) with h | rfl
    · exact h
    · have hA : '.' ∈ renderNat2 m := e ▸ List.mem_cons_self _ _
      rw [renderNat2] at e
      cases e2 : natToChars (m / 100) with
      | nil => exact absurd e2 (natToChars_ne_nil _)
      | cons b bs =>
        rw [e2, List.cons_append] at e
        injection e with h1 _
        have hb := natToChars_digits (m / 100) b (e2 ▸ List.mem_cons_self b bs)
        rw [h1] at hb
        exact hb
  rw [e, parseDec_digit_head c cs hcdig, ← e,
    parseUnsignedDec_no_exp _ (renderNat2_no_exp m), parseMant_renderNat2]

/-- C7: writing any value through the 2-digit fixed decimal format and
reading it back through the numeric normalizer returns exactly the value
rounded to 2 decimal places. -/
theorem to_float_to_str_dot_roundtrip (v d : ℚ) :
    _to_float (.str (_to_str_dot v)) d = round2 v := by
  by_cases hn : roundHE (v * 100) < 0
  · have hrender : _to_str_dot v = ⟨'-' :: renderNat2 (roundHE (v * 100)).natAbs⟩ := by
      simp only [_to_str_dot]
      rw [if_pos hn]
    set m := (roundHE (v * 100)).natAbs with hm
    rw [hrender]
    have hnospace : ∀ c ∈ '-' :: renderNat2 m, pySpace c = false := by
      intro c hc
      rcases List.mem_cons.mp hc with rfl | hc
      · decide
      · exact renderNat2_no_space m c hc
    have hclean : ∀ c ∈ '-' :: renderNat2 m,
        (c == ' ' || c == ' ') = false ∧ ¬ c = ',' := by
      intro c hc
      rcases List.mem_cons.mp hc with rfl | hc
      · exact ⟨by decide, by decide⟩
      · exact renderNat2_clean_ok m c hc
    simp only [_to_float]
    rw [pyStripChars_id _ hnospace]
    simp only [List.isEmpty_cons, Bool.false_eq_true, if_false]
    rw [pyCleanChars_id _ hclean]
    rw [show parseDec ('-' :: renderNat2 m)
        = (parseUnsignedDec (renderNat2 m)).map Neg.neg from rfl,
      parseUnsignedDec_no_exp _ (renderNat2_no_exp m), parseMant_renderNat2]
    have habs : ((m : ℕ) : ℚ) = -((roundHE (v * 100) : ℤ) : ℚ) := by
      calc ((m : ℕ) : ℚ) = |((roundHE (v * 100) : ℤ) : ℚ)| := by
            rw [hm, Int.cast_natAbs, Int.cast_abs]
        _ = -((roundHE (v * 100) : ℤ) : ℚ) :=
            abs_of_neg (by exact_mod_cast hn)
    rw [show (match Option.map (fun q : ℚ => -q) (some (((m : ℕ) : ℚ) / 100)) with
        | Option.some q => q
        | Option.none => d) = -(((m : ℕ) : ℚ) / 100) from rfl]
    rw [round2, habs]
    ring
  · have hrender : _to_str_dot v = ⟨renderNat2 (roundHE (v * 100)).toNat⟩ := by
      simp only [_to_str_dot]
      rw [if_neg hn]
    set m := (roundHE (v * 100)).toNat with hm
    rw [hrender]
    simp only [_to_float]
    rw [pyStripChars_id _ (renderNat2_no_space m), renderNat2_ne_nil m]
    simp only [Bool.false_eq_true, if_false]
    rw [parse_clean_renderNat2 m]
    rw [round2]
    have hcast : ((m : ℕ) : ℚ) = ((roundHE (v * 100) : ℤ) : ℚ) := by
      rw [hm]
      exact_mod_cast congrArg (fun k : ℤ => (k : ℚ))
        (Int.toNat_of_nonneg (not_lt.mp hn))
    rw [show (match some (((m : ℕ) : ℚ) / 100) with
        | Option.some q => q
        | Option.none => d) = ((m : ℕ) : ℚ) / 100 from rfl]
    rw [hcast]

example : _to_str_dot (3677/5) = "735.40" := by with_unfolding_all decide
example : _to_str_dot (-3/200) = "-0.02" := by with_unfolding_all decide
example : _fmt_hours 700 = "700" := by with_unfolding_all decide
example : _to_float (.str "1e2") 0 = 100 := by with_unfolding_all decide
example : _to_float (.str "abc") 7 = 7 := by decide
example : _to_float (.str "") 7 = 7 := by decide
example :
    update_object_fuel_with_calc [⟨"US0001", 700, 300, 50, 5⟩] [] "US0001"
      (.num 710) (.num 20) false 1 none
    = { error := none, ok := true, table := [⟨"US0001", 710, 300, 20, 5⟩],
        logs := [⟨"US0001", 700, 710, 10, 20, false, 20, 1, ""⟩] } := by
  with_unfolding_all decide
